import Mathlib

/-!
Verification development for the `toxi.geom.mesh2d` Delaunay/Voronoi engine
(`DelaunayVertex.js`, `DelaunayTriangle.js`, `DelaunayTriangulation.js`,
`Voronoi.js`).

The source is a JavaScript transliteration of Paul Chew's Java applet code.
We embed it shallowly:

* a `DelaunayVertex` is its coordinate list, modelled as `List ℚ` (the
  source computes with IEEE doubles; all the predicates are ratios of
  exact determinant arithmetic, which we model exactly over `ℚ`);
* the mutable `boolean[] columns` mask of the recursive cofactor
  determinant is threaded explicitly: every function that the source lets
  mutate the mask returns the final mask state next to its value;
* Java `Set` membership on vertices uses `equals`, which
  `DelaunayVertex.equals` defines coordinate-wise, so vertex-set
  membership is structural equality of `List ℚ`;
* `DelaunayTriangle.equals` is reference equality; triangles are carried
  as a structure with an `id` field, and triangle-set membership is
  structure equality (ids are kept distinct by construction wherever a
  proof depends on it);
* unbounded source loops (`locate`'s directed walk, `getCavity`'s
  worklist, `surroundingTriangles`' fan walk) are given explicit fuel;
  the fuel-exhaustion branch returns what the corresponding `break`
  returns, and where a claim is about termination we prove the result is
  independent of any extra fuel.
-/

namespace Toxi

/-- Coordinates of a `DelaunayVertex` (`this.coordinates`). -/
abbrev Vtx := List ℚ

/-- `DelaunayVertex.dot` (dimensions agree at every call site we model;
the transliterated `dimCheck` throw is not reachable there). -/
def vDot (a b : Vtx) : ℚ := (List.zip a b).foldl (fun acc q => acc + q.1 * q.2) 0

/-- Inner loop of `determinant(matrix, row, columns)`: the `for (col …)`
loop over the mask.  `f` is the evaluation of the remaining rows
(`determinant(matrix, row + 1, columns)`), returning its value together
with the mask state it leaves behind; the source mutates `columns[col]`
to `false` before that call and back to `true` after it, which is the
`List.set` threading below.  `fuel` is the fixed `columns.length` read at
loop entry (`List.set` preserves the length, so the bound never moves). -/
def detLoop (r : List ℚ) (f : List Bool → ℚ × List Bool) :
    Nat → Nat → List Bool → ℚ → ℚ → ℚ × List Bool
  | 0, _, cols, _, sum => (sum, cols)
  | fuel + 1, col, cols, sign, sum =>
    if cols.getD col false then
      let cols1 := cols.set col false
      let p := f cols1
      let cols2 := p.2.set col true
      detLoop r f fuel (col + 1) cols2 (-sign) (sum + sign * r.getD col 0 * p.1)
    else
      detLoop r f fuel (col + 1) cols sign sum

/-- Row recursion of `determinant(matrix, row, columns)`, with the row
pointer replaced by the list of rows still to expand and a structural
fuel that is always instantiated with exactly the number of remaining
rows (so the `0`/`[]` base cases coincide and the fuel is inert; it only
makes the recursion structural).  Returns the value and the final state
of the `columns` mask. -/
def detRec : Nat → List (List ℚ) → List Bool → ℚ × List Bool
  | 0, _, cols => (1, cols)
  | _ + 1, [], cols => (1, cols)
  | fuel + 1, r :: rest, cols =>
    detLoop r (fun c => detRec fuel rest c) cols.length 0 cols 1 0

/-- `determinant(matrix, row, columns)` on the rows from `row` on. -/
def detRows (rows : List (List ℚ)) (cols : List Bool) : ℚ × List Bool :=
  detRec rows.length rows cols

/-- `determinant(matrix, row, columns)`: value and final mask state. -/
def determinantSub (matrix : List (List ℚ)) (row : Nat) (columns : List Bool) :
    ℚ × List Bool :=
  detRows (matrix.drop row) columns

/-- `determinant(matrix)`: all columns active. -/
def det (matrix : List (List ℚ)) : ℚ :=
  (detRows matrix (List.replicate matrix.length true)).1

/-- The `for (i …)` loop of `cross`: deactivate column `i`, evaluate the
cofactor determinant, reactivate column `i` on the mask the evaluation
returned, alternate the sign. -/
def crossLoop (matrix : List (List ℚ)) : Nat → Nat → List Bool → ℚ → List ℚ
  | 0, _, _, _ => []
  | fuel + 1, i, cols, sign =>
    let cols1 := cols.set i false
    let p := detRows matrix cols1
    let cols2 := p.2.set i true
    (sign * p.1) :: crossLoop matrix fuel (i + 1) cols2 (-sign)

/-- `cross(matrix)`: generalized cross product of the rows.  `len` is
`matrix.length + 1` and at every modelled call site it equals the row
dimension, so the transliterated shape check cannot fire. -/
def cross (matrix : List (List ℚ)) : List ℚ :=
  crossLoop matrix (matrix.length + 1) 0 (List.replicate (matrix.length + 1) true) 1

/-- `content(simplex)`: signed content, `determinant / (len - 1)!`.  The
division by the (positive) factorial is written as multiplication by the
unit fraction `mkRat 1 fact` — the same rational — so that the kernel
can evaluate it on concrete inputs. -/
def content (s : List Vtx) : ℚ :=
  det (s.map (fun v => v ++ [1])) * mkRat 1 (Nat.factorial (s.length - 1))

/-- `vsCircumcircle(simplex)`: sign of the lifted determinant, flipped
when the simplex is negatively oriented. -/
def vsCircumcircle (p : Vtx) (s : List Vtx) : Int :=
  let matrix := (s.map (fun v => v ++ [1, vDot v v])) ++ [p ++ [1, vDot p p]]
  let d := det matrix
  let result : Int := if d < 0 then -1 else if 0 < d then 1 else 0
  if content s < 0 then -result else result

/-- `relation(simplex)`: the vector of signs classifying the point
against each facet of the simplex.  The homogeneous matrix is the row of
ones on top of one row per axis (`p_i` first, then each simplex vertex's
`i`-th coordinate); the raw signs come from the cross-product vector with
the `1e-6 * |content|` tolerance, then are negated when the content is
negative and forced non-negative when the content is zero, exactly as in
the source. -/
def relation (p : Vtx) (s : List Vtx) : List Int :=
  let n := s.length
  let matrix := (List.replicate (n + 1) (1 : ℚ)) ::
    (List.range (n - 1)).map (fun i => p.getD i 0 :: s.map (fun v => v.getD i 0))
  let vector := cross matrix
  let c := vector.getD 0 0
  let raw := (List.range n).map (fun i =>
    let value := vector.getD (i + 1) 0
    if |value| ≤ mkRat 1 1000000 * |c| then (0 : Int)
    else if value < 0 then -1 else 1)
  let r1 := if c < 0 then raw.map (fun x => -x) else raw
  if c = 0 then r1.map (fun x => |x|) else r1

/-- `isInside(simplex)`: true iff no relation sign is `≥ 0`. -/
def isInside (p : Vtx) (s : List Vtx) : Bool :=
  (relation p s).all (fun r => decide (r < 0))

/-- The `for` loop of `isOn`: a zero sign overwrites the witness, a
positive sign returns `null` immediately. -/
def isOnLoop : List (Vtx × Int) → Option Vtx → Option Vtx
  | [], w => w
  | (v, r) :: rest, w =>
    if r = 0 then isOnLoop rest (some v)
    else if 0 < r then none
    else isOnLoop rest w

/-- `isOn(simplex)`: the vertex witnessing on-ness, or `null`. -/
def isOn (p : Vtx) (s : List Vtx) : Option Vtx :=
  isOnLoop (s.zip (relation p s)) none

/-- `isOutside(simplex)`: the first vertex whose relation sign is
positive, or `null`. -/
def isOutside (p : Vtx) (s : List Vtx) : Option Vtx :=
  ((s.zip (relation p s)).find? (fun q => decide (0 < q.2))).map (fun q => q.1)

/-- Spec reading of `isOn` ("the first simplex vertex (in index order)
whose sign is zero, or none if there is no zero or some sign is
positive"), for comparison with the source. -/
def isOnSpecFirst (p : Vtx) (s : List Vtx) : Option Vtx :=
  let z := s.zip (relation p s)
  if z.any (fun q => decide (0 < q.2)) then none
  else (z.find? (fun q => decide (q.2 = 0))).map (fun q => q.1)

/-- Same as `isOnSpecFirst` with "first" replaced by "last": the reading
that matches the source's overwritten witness. -/
def isOnSpecLast (p : Vtx) (s : List Vtx) : Option Vtx :=
  let z := s.zip (relation p s)
  if z.any (fun q => decide (0 < q.2)) then none
  else (z.reverse.find? (fun q => decide (q.2 = 0))).map (fun q => q.1)

/-- Spec reading of `isOutside` ("the first simplex vertex whose sign is
positive, or none"). -/
def isOutsideSpec (p : Vtx) (s : List Vtx) : Option Vtx :=
  ((s.zip (relation p s)).find? (fun q => decide (0 < q.2))).map (fun q => q.1)

/-! ### The determinant's column mask is restored (C10) -/

lemma set_true_of_getD (l : List Bool) (i : Nat) (h : l.getD i false = true) :
    l.set i true = l := by
  induction l generalizing i with
  | nil => rfl
  | cons a t ih =>
    cases i with
    | zero => simpa using h.symm
    | succ j => simpa using ih j (by simpa using h)

lemma detLoop_mask (r : List ℚ) (f : List Bool → ℚ × List Bool)
    (hf : ∀ c, (f c).2 = c) :
    ∀ fuel col cols sign sum, (detLoop r f fuel col cols sign sum).2 = cols := by
  intro fuel
  induction fuel with
  | zero => intro col cols sign sum; rfl
  | succ n ih =>
    intro col cols sign sum
    by_cases h : cols.getD col false = true
    · have hset : ((f (cols.set col false)).2).set col true = cols := by
        rw [hf]
        rw [List.set_set]
        exact set_true_of_getD cols col h
      simp only [detLoop, h, if_true, hset]
      exact ih _ _ _ _
    · simp only [detLoop, Bool.not_eq_true] at h ⊢
      rw [h]
      simpa using ih _ _ _ _

lemma detRec_mask : ∀ fuel rows cols, (detRec fuel rows cols).2 = cols := by
  intro fuel
  induction fuel with
  | zero => intro rows cols; rfl
  | succ n ih =>
    intro rows cols
    cases rows with
    | nil => rfl
    | cons r rest =>
      simpa [detRec] using detLoop_mask r (fun c => detRec n rest c) (ih rest) _ _ _ _ _

lemma detRows_mask (rows : List (List ℚ)) (cols : List Bool) :
    (detRows rows cols).2 = cols :=
  detRec_mask rows.length rows cols

/-- C10: the recursive cofactor `determinant(matrix, row, columns)`
returns the `columns` mask exactly as it received it, for every matrix,
row index and mask, so repeated and nested evaluations over the shared
mask are sound. -/
theorem determinantSub_mask_frame (matrix : List (List ℚ)) (row : Nat)
    (columns : List Bool) : (determinantSub matrix row columns).2 = columns :=
  detRows_mask (matrix.drop row) columns

/-! ### Derived predicate views (C7) -/

lemma isOnLoop_eq (z : List (Vtx × Int)) (w : Option Vtx) :
    isOnLoop z w =
      if z.any (fun q => decide (0 < q.2)) then none
      else
        match z.reverse.find? (fun q => decide (q.2 = 0)) with
        | some q => some q.1
        | none => w := by
  induction z generalizing w with
  | nil => rfl
  | cons q rest ih =>
    obtain ⟨v, r⟩ := q
    rcases lt_trichotomy r 0 with hneg | hzero | hpos
    · have h0 : ¬r = 0 := by omega
      have h1 : ¬0 < r := by omega
      rw [show isOnLoop ((v, r) :: rest) w = isOnLoop rest w by
        simp [isOnLoop, h0, h1]]
      rw [ih]
      have hcond : (decide (0 < r) || rest.any fun q => decide (0 < q.2)) =
          (rest.any fun q => decide (0 < q.2)) := by
        rw [decide_eq_false h1, Bool.false_or]
      rw [List.any_cons, hcond, List.reverse_cons, List.find?_append]
      have hfind1 : List.find? (fun q => decide (q.2 = 0)) [(v, r)] = none := by
        simp [List.find?, decide_eq_false h0]
      rw [hfind1]
      rcases hfind : rest.reverse.find? (fun q => decide (q.2 = 0)) with _ | u <;>
        simp [hfind]
    · subst hzero
      rw [show isOnLoop ((v, (0 : Int)) :: rest) w = isOnLoop rest (some v) by
        simp [isOnLoop]]
      rw [ih]
      rcases hany : rest.any (fun q => decide (0 < q.2)) with _ | _
      · simp only [List.any_cons, hany, List.reverse_cons, List.find?_append,
          Bool.or_false, decide_eq_false (lt_irrefl (0 : Int))]
        rcases hfind : rest.reverse.find? (fun q => decide (q.2 = 0)) with _ | u
        · simp [hfind]
        · simp [hfind]
      · simp [hany]
    · rw [show isOnLoop ((v, r) :: rest) w = none by
        have h0 : ¬r = 0 := by omega
        simp [isOnLoop, h0, hpos]]
      simp [hpos]

/-- C7 (amended): with `signs = relation(p, simplex)`, `isInside` is true
iff every sign is negative; `isOn` returns the **last** simplex vertex (in
index order) whose sign is zero, or none if there is no zero or some sign
is positive; `isOutside` returns the first simplex vertex whose sign is
positive, or none if no sign is positive. -/
theorem relation_derived_views (p : Vtx) (s : List Vtx)
    (_h : p.length + 1 = s.length) :
    (isInside p s = true ↔ ∀ r ∈ relation p s, r < 0) ∧
    isOn p s = isOnSpecLast p s ∧ isOutside p s = isOutsideSpec p s := by
  refine ⟨?_, ?_, rfl⟩
  · simp [isInside, List.all_eq_true]
  · rw [isOn, isOnLoop_eq, isOnSpecLast]
    rcases hfind : (s.zip (relation p s)).reverse.find?
        (fun q => decide (q.2 = 0)) with _ | u <;> simp [hfind]

/-- Witness for `relation_derived_views` at a point strictly inside the
standard simplex. -/
theorem relation_derived_views_witness :
    (([1/3, 1/3] : Vtx).length + 1 = ([[0,0], [1,0], [0,1]] : List Vtx).length) ∧
    ((isInside [1/3, 1/3] [[0,0], [1,0], [0,1]] = true ↔
        ∀ r ∈ relation [1/3, 1/3] [[0,0], [1,0], [0,1]], r < 0) ∧
      isOn [1/3, 1/3] [[0,0], [1,0], [0,1]] =
        isOnSpecLast [1/3, 1/3] [[0,0], [1,0], [0,1]] ∧
      isOutside [1/3, 1/3] [[0,0], [1,0], [0,1]] =
        isOutsideSpec [1/3, 1/3] [[0,0], [1,0], [0,1]]) :=
  ⟨by decide, relation_derived_views [1/3, 1/3] [[0,0], [1,0], [0,1]] (by decide)⟩

/-! ### Triangles, the adjacency graph, and the triangulation engine -/

/-- A `DelaunayTriangle` as carried by the engine: its (insertion-ordered,
duplicate-free) vertex set and the identity used by `equals`/`hashCode`.
Structure equality models Java reference equality: every construction
site below assigns a fresh `id`. -/
structure Tri where
  id : Nat
  verts : List Vtx
deriving DecidableEq, Repr

/-- Default triangle (only used as a `getD` fallback under an
in-bounds hypothesis). -/
def dTri : Tri := ⟨0, []⟩

/-- Java `Set.add` on vertex sets: append unless already present
(membership by `DelaunayVertex.equals`, i.e. coordinate-wise). -/
def vtxSetAdd (l : List Vtx) (v : Vtx) : List Vtx :=
  if v ∈ l then l else l ++ [v]

/-- `DelaunayTriangle.contains(site)` / Java `Set.contains` with
coordinate-wise vertex equality. -/
def containsV (t : Tri) (site : Vtx) : Prop := site ∈ t.verts

instance (t : Tri) (site : Vtx) : Decidable (containsV t site) := by
  unfold containsV; infer_instance

/-- The literal transliterated `DelaunayTriangle` constructor
(`DelaunayTriangle.js` lines 27-41): the incoming collection is
deduplicated by the `Set` superclass, and then
`this.idNumber = 0; this.idGenerator = 0; idNumber = idGenerator++;`
assigns the instance's own freshly zeroed generator, so the stored
`idNumber` is `0` on every construction.  (The `size() != 3` throw is
omitted: no claim depends on it.) -/
def mkDelaunayTriangle (collection : List Vtx) : Tri :=
  { id := 0, verts := collection.foldl vtxSetAdd [] }

/-- `hashCode()`: a function of `idNumber` only (`id ^ (id >>> 32)`;
for the 32-bit ids that occur, `>>> 32` is the identity shift in JS,
so this is `id ^^^ id` in the model's arithmetic reading — what matters
for the claims is that it depends on nothing but the identity). -/
def triHashCode (t : Tri) : Nat := t.id ^^^ t.id

/-- `facetOpposite(vertex)`: the vertex set with `vertex` removed (the
`IllegalArgumentException` branch is not taken at modelled call sites,
where the vertex is always a member). -/
def facetOpposite (t : Tri) (v : Vtx) : List Vtx := t.verts.erase v

/-- `getVertexButNot(...badVertices)`: first vertex (in set iteration
order) not among the bad ones; `none` models the `NoSuchElementException`. -/
def getVertexButNot (t : Tri) (bad : List Vtx) : Option Vtx :=
  t.verts.find? (fun v => decide (v ∉ bad))

/-- `isNeighbor(triangle)`: exactly one of this triangle's vertices is
missing from the other. -/
def isNeighborB (t u : Tri) : Bool :=
  (t.verts.filter (fun v => decide (v ∉ u.verts))).length == 1

/-- Modelled from the spec: the `UndirectedGraph` container
(`toxi.util.datatypes.UndirectedGraph`, an external collaborator whose
source is not part of this repository).  Per spec §2/§3 it offers node
add/remove and neighbor lookup: nodes are the live triangles, an edge
joins two triangles, and removing a node drops its incident edges. -/
structure Graph where
  nodes : List Tri
  edges : List (Tri × Tri)
deriving DecidableEq, Repr

/-- Modelled from the spec: `getConnectedNodesFor(t)` — the nodes joined
to `t` by an edge (in either orientation). -/
def Graph.neighborsOf (g : Graph) (t : Tri) : List Tri :=
  g.nodes.filter (fun u =>
    g.edges.any (fun e => (e.1 == t && e.2 == u) || (e.1 == u && e.2 == t)))

/-- Modelled from the spec: `UndirectedGraph.add`. -/
def Graph.addNode (g : Graph) (t : Tri) : Graph :=
  { nodes := g.nodes ++ [t], edges := g.edges }

/-- Modelled from the spec: `UndirectedGraph.remove` (node and incident
edges). -/
def Graph.removeNode (g : Graph) (t : Tri) : Graph :=
  { nodes := g.nodes.filter (fun u => u != t),
    edges := g.edges.filter (fun e => e.1 != t && e.2 != t) }

/-- Modelled from the spec: `UndirectedGraph.connect`. -/
def Graph.connect (g : Graph) (a b : Tri) : Graph :=
  { nodes := g.nodes, edges := g.edges ++ [(a, b)] }

/-- The `DelaunayTriangulation` state: the triangle graph and the cached
most-recent triangle.  `nextId` is the monotone identity source for
triangles built during retriangulation (the static id generator of the
original Java, owned by the state as spec §9 prescribes). -/
structure DT where
  graph : Graph
  mostRecent : Tri
  nextId : Nat
deriving DecidableEq, Repr

/-- `neighborOpposite(site, triangle)`: `.error` is the
`IllegalArgumentException`, `.ok none` the `return null`. -/
def neighborOpposite (site : Vtx) (triangle : Tri) (g : Graph) :
    Except String (Option Tri) :=
  if containsV triangle site then
    .ok ((g.neighborsOf triangle).find? (fun n => decide (¬containsV n site)))
  else
    .error "IllegalArgumentException: Bad vertex; not in triangle"

/-- `locate`'s brute-force fallback: scan all live triangles for one
with `isOutside == null`. -/
def locateFallback (point : Vtx) (g : Graph) : Option Tri :=
  g.nodes.find? (fun t => decide (isOutside point t.verts = none))

/-- The directed walk of `locate`.  The fuel exhaustion branch returns
what the `visited` revisit `break` returns (the fallback scan); fuel
`|nodes| + 1` can in fact never run out, because every iteration either
stops or visits a previously unvisited live triangle. -/
def locateLoop (point : Vtx) (g : Graph) :
    Nat → Tri → List Tri → Except String (Option Tri)
  | 0, _, _ => .ok (locateFallback point g)
  | fuel + 1, triangle, visited =>
    if triangle ∈ visited then .ok (locateFallback point g)
    else
      match isOutside point triangle.verts with
      | none => .ok (some triangle)
      | some corner =>
        match neighborOpposite corner triangle g with
        | .error e => .error e
        | .ok none => .ok (locateFallback point g)
        | .ok (some next) => locateLoop point g fuel next (triangle :: visited)

/-- `locate(point)`: start the walk at the cached most-recent triangle
when it is still live, otherwise (`triangle = null`) the `while` loop is
skipped and the fallback scan runs directly. -/
def locate (point : Vtx) (st : DT) : Except String (Option Tri) :=
  if st.mostRecent ∈ st.graph.nodes then
    locateLoop point st.graph (st.graph.nodes.length + 1) st.mostRecent []
  else
    .ok (locateFallback point st.graph)

lemma locateFallback_ok (point : Vtx) (g : Graph) (T : Tri)
    (h : locateFallback point g = some T) : isOutside point T.verts = none := by
  have := List.find?_some h
  simpa using this

lemma locateLoop_ok (point : Vtx) (g : Graph) :
    ∀ fuel tri visited T, locateLoop point g fuel tri visited = .ok (some T) →
      isOutside point T.verts = none := by
  intro fuel
  induction fuel with
  | zero =>
    intro tri visited T h
    simp only [locateLoop] at h
    injection h with h2
    exact locateFallback_ok point g T h2
  | succ f ih =>
    intro tri visited T h
    simp only [locateLoop] at h
    by_cases hv : tri ∈ visited
    · rw [if_pos hv] at h
      injection h with h2
      exact locateFallback_ok point g T h2
    · rw [if_neg hv] at h
      rcases ho : isOutside point tri.verts with _ | corner
      · simp only [ho] at h
        injection h with h2
        injection h2 with h3
        rw [← h3]
        exact ho
      · simp only [ho] at h
        rcases hno : neighborOpposite corner tri g with e | onext
        · simp only [hno] at h
          cases h
        · rcases onext with _ | next
          · simp only [hno] at h
            injection h with h2
            exact locateFallback_ok point g T h2
          · simp only [hno] at h
            exact ih next (tri :: visited) T h

/-- The provable half of the containment postcondition: whenever
`locate(point)` returns a triangle (by walk or by fallback), that
triangle's `isOutside` test of the point is `none`. -/
lemma locate_containing (point : Vtx) (st : DT) (T : Tri)
    (h : locate point st = .ok (some T)) : isOutside point T.verts = none := by
  unfold locate at h
  by_cases hm : st.mostRecent ∈ st.graph.nodes
  · rw [if_pos hm] at h
    exact locateLoop_ok point st.graph _ st.mostRecent [] T h
  · rw [if_neg hm] at h
    injection h with h2
    exact locateFallback_ok point st.graph T h2

/-- The neighbor scan inside `getCavity`'s loop: each neighbor of the
accepted triangle that is not yet marked is marked and collected for the
worklist, in order. Returns the grown marked set and the enqueued list. -/
def markNeighbors (marked acc : List Tri) : List Tri → List Tri × List Tri
  | [] => (marked, acc)
  | n :: ns =>
    if n ∈ marked then markNeighbors marked acc ns
    else markNeighbors (marked ++ [n]) (acc ++ [n]) ns

/-- The worklist loop of `getCavity(site, triangle)`.  State: remaining
fuel, FIFO worklist (`toBeChecked`), `marked`, the accumulated cavity
(`encroached`, in acceptance order) and — as a ghost observation used to
state the claims — the list of triangles dequeued so far.  Fuel
exhaustion returns the accumulators; `getCavity_correct` proves the
default fuel is never exhausted. -/
def getCavityAux (site : Vtx) (g : Graph) :
    Nat → List Tri → List Tri → List Tri → List Tri → List Tri × List Tri
  | 0, _, _, enc, tr => (enc, tr)
  | fuel + 1, worklist, marked, enc, tr =>
    match worklist with
    | [] => (enc, tr)
    | t :: rest =>
      if vsCircumcircle site t.verts = 1 then
        getCavityAux site g fuel rest marked enc (tr ++ [t])
      else
        let mq := markNeighbors marked [] (g.neighborsOf t)
        getCavityAux site g fuel (rest ++ mq.2) mq.1 (enc ++ [t]) (tr ++ [t])

/-- `getCavity` with explicit fuel, seeded as in the source: the located
triangle is enqueued and marked. -/
def getCavityFull (fuel : Nat) (site : Vtx) (g : Graph) (triangle : Tri) :
    List Tri × List Tri :=
  getCavityAux site g fuel [triangle] [triangle] [] []

/-- `getCavity(site, triangle)`: the set of triangles whose circumcircle
test does not put `site` outside, found by worklist flood fill. -/
def getCavity (site : Vtx) (g : Graph) (triangle : Tri) : List Tri :=
  (getCavityFull (g.nodes.length + 2) site g triangle).1

/-- The dequeue trace of `getCavity`: every triangle the loop examined,
in order. -/
def getCavityTrace (site : Vtx) (g : Graph) (triangle : Tri) : List Tri :=
  (getCavityFull (g.nodes.length + 2) site g triangle).2

/-- Java `Set` equality on facets (element sets, coordinate-wise vertex
equality). -/
def facetSetEq (a b : List Vtx) : Bool :=
  a.all (fun x => decide (x ∈ b)) && b.all (fun x => decide (x ∈ a))

/-- The symmetric-difference accumulation of boundary facets in
`update`: if an equal facet is present it is removed, otherwise the
facet is added. -/
def boundaryToggle (boundary : List (List Vtx)) (f : List Vtx) : List (List Vtx) :=
  if boundary.any (fun f2 => facetSetEq f2 f) then
    boundary.eraseP (fun f2 => facetSetEq f2 f)
  else boundary ++ [f]

/-- Java `Set.add` on identity-keyed triangle sets. -/
def triSetAdd (l : List Tri) (t : Tri) : List Tri :=
  if t ∈ l then l else l ++ [t]

/-- `update(site, cavity)`: boundary-facet accumulation, retained
neighbors, cavity removal, new-triangle construction (`facet ∪ {site}`,
each with a fresh identity drawn from `nextId`), and relinking.  Returns
the mutated graph, the new triangles (in construction order) and the
next identity. -/
def update (site : Vtx) (cavity : List Tri) (st : DT) :
    Graph × List Tri × Nat :=
  let boundary := cavity.foldl
    (fun b t => t.verts.foldl (fun b2 v => boundaryToggle b2 (facetOpposite t v)) b) []
  let adjAll := cavity.foldl
    (fun acc t => (st.graph.neighborsOf t).foldl triSetAdd acc) []
  let adjOnly := adjAll.filter (fun t => decide (t ∉ cavity))
  let g1 := cavity.foldl Graph.removeNode st.graph
  let built := boundary.foldl
    (fun acc f =>
      let t : Tri := ⟨acc.2.2, vtxSetAdd f site⟩
      (acc.1.addNode t, acc.2.1 ++ [t], acc.2.2 + 1))
    (g1, ([], st.nextId))
  let theTriangles := built.2.1.foldl triSetAdd adjOnly
  let g3 := built.2.1.foldl
    (fun g t => theTriangles.foldl
      (fun g2 o => if isNeighborB t o then g2.connect t o else g2) g)
    built.1
  (g3, built.2.1, built.2.2)

/-- `delaunayPlace(site)`, with the exit state paired with the error (if
any) that the call would throw: errors from `locate` and the
no-containing-triangle `IllegalArgumentException` leave the state as it
was; the `update` path commits the mutated graph, and the (never
geometrically reachable) empty-`newTriangles` case models
`newTriangles.iterator().next()` failing after the graph edits. -/
def delaunayPlaceImp (site : Vtx) (st : DT) : DT × Option String :=
  match locate site st with
  | .error e => (st, some e)
  | .ok none => (st, some "IllegalArgumentException: No containing triangle")
  | .ok (some triangle) =>
    if containsV triangle site then (st, none)
    else
      let cavity := getCavity site st.graph triangle
      let u := update site cavity st
      match u.2.1.head? with
      | some t => ({ graph := u.1, mostRecent := t, nextId := u.2.2 }, none)
      | none =>
        ({ graph := u.1, mostRecent := st.mostRecent, nextId := u.2.2 },
          some "NoSuchElementException")

/-- The `while (true)` loop of `surroundingTriangles`: add the current
triangle, step to the neighbor opposite the guide, rotate the guide to
the current triangle's remaining vertex, stop when the step returns to
`start`.  A `null` step result makes the next iteration dereference
`null` in the source, modelled as an error; `.ok none` is fuel
exhaustion, which `surroundingTriangles_fan` proves unreachable under a
closed fan. -/
def stLoop (site : Vtx) (g : Graph) :
    Nat → Tri → Vtx → List Tri → Tri → Except String (Option (List Tri))
  | 0, _, _, _, _ => .ok none
  | fuel + 1, triangle, guide, list, start =>
    let list2 := list ++ [triangle]
    match neighborOpposite guide triangle g with
    | .error e => .error e
    | .ok none => .error "TypeError: null triangle in fan walk"
    | .ok (some next) =>
      match getVertexButNot triangle [site, guide] with
      | none => .error "NoSuchElementException: No vertex found"
      | some guide2 =>
        if next = start then .ok (some list2)
        else stLoop site g fuel next guide2 list2 start

/-- `surroundingTriangles(site, triangle)`: the fan of triangles around
`site` starting (and ending) at `triangle`. -/
def surroundingTriangles (site : Vtx) (triangle : Tri) (g : Graph) :
    Except String (Option (List Tri)) :=
  if ¬containsV triangle site then
    .error "IllegalArgumentException: Site not in triangle"
  else
    match getVertexButNot triangle [site] with
    | none => .error "NoSuchElementException: No vertex found"
    | some guide => stLoop site g (g.nodes.length + 1) triangle guide [] triangle

/-! ### Concrete states used by witnesses -/

/-- A concrete bounding triangle. -/
def boundingTri : Tri := ⟨0, [[-10, -10], [10, -10], [0, 10]]⟩

/-- The freshly constructed triangulation over `boundingTri`. -/
def initState : DT :=
  { graph := { nodes := [boundingTri], edges := [] },
    mostRecent := boundingTri, nextId := 1 }

/-! ### Cavity flood fill: auxiliary lemmas (C3) -/

/-- The sublist of `ns` that `markNeighbors` freshly marks against
`marked`, in order. -/
def freshOf (marked : List Tri) : List Tri → List Tri
  | [] => []
  | n :: ns => if n ∈ marked then freshOf marked ns else n :: freshOf (marked ++ [n]) ns

lemma markNeighbors_eq :
    ∀ ns marked acc, markNeighbors marked acc ns =
      (marked ++ freshOf marked ns, acc ++ freshOf marked ns) := by
  intro ns
  induction ns with
  | nil => intro marked acc; simp [markNeighbors, freshOf]
  | cons n ns ih =>
    intro marked acc
    by_cases h : n ∈ marked
    · simp [markNeighbors, freshOf, h, ih]
    · simp only [markNeighbors, freshOf, h, if_neg, if_false, ite_false, ih]
      simp [ih]

lemma freshOf_mem : ∀ ns marked x, x ∈ freshOf marked ns → x ∈ ns ∧ x ∉ marked := by
  intro ns
  induction ns with
  | nil => intro marked x h; simp [freshOf] at h
  | cons n ns ih =>
    intro marked x h
    by_cases hn : n ∈ marked
    · simp only [freshOf, if_pos hn] at h
      have := ih marked x h
      exact ⟨List.mem_cons_of_mem _ this.1, this.2⟩
    · simp only [freshOf, if_neg hn] at h
      rcases List.mem_cons.mp h with rfl | h2
      · exact ⟨List.mem_cons_self _ _, hn⟩
      · have := ih (marked ++ [n]) x h2
        refine ⟨List.mem_cons_of_mem _ this.1, fun hx => this.2 ?_⟩
        exact List.mem_append.mpr (Or.inl hx)

lemma freshOf_nodup : ∀ ns marked, (freshOf marked ns).Nodup := by
  intro ns
  induction ns with
  | nil => intro marked; simp [freshOf]
  | cons n ns ih =>
    intro marked
    by_cases hn : n ∈ marked
    · simpa [freshOf, hn] using ih marked
    · simp only [freshOf, if_neg hn, List.nodup_cons]
      refine ⟨fun hmem => ?_, ih (marked ++ [n])⟩
      exact (freshOf_mem ns (marked ++ [n]) n hmem).2 (by simp)

lemma filterMonoLen (p q : Tri → Bool) (hpq : ∀ x, p x = true → q x = true) :
    ∀ l : List Tri, (l.filter p).length ≤ (l.filter q).length := by
  intro l
  induction l with
  | nil => simp
  | cons a l ih =>
    by_cases hp : p a = true
    · simp [List.filter_cons, hp, hpq a hp]
      omega
    · simp only [List.filter_cons, hp, if_false, Bool.not_eq_true] at *
      rcases hq : q a with _ | _ <;> simp [hq] <;> omega

lemma unmarked_step (marked : List Tri) (e : Tri) (he : e ∉ marked) :
    ∀ l : List Tri, e ∈ l →
      (l.filter (fun x => decide (x ∉ marked ++ [e]))).length + 1 ≤
        (l.filter (fun x => decide (x ∉ marked))).length := by
  intro l
  induction l with
  | nil => intro h; simp at h
  | cons a l ih =>
    intro hmem
    by_cases hae : a = e
    · subst hae
      have h1 : (decide (a ∉ marked ++ [a])) = false := by simp
      have h2 : (decide (a ∉ marked)) = true := by simpa using he
      simp only [List.filter_cons, h1, h2, if_false, if_true,
        List.length_cons, Bool.false_eq_true, ite_false, ite_true]
      have := filterMonoLen (fun x => decide (x ∉ marked ++ [a]))
        (fun x => decide (x ∉ marked))
        (fun x hx => by
          simp only [decide_eq_true_eq] at hx ⊢
          exact fun hmx => hx (List.mem_append.mpr (Or.inl hmx))) l
      omega
    · have hmem2 : e ∈ l := by
        rcases List.mem_cons.mp hmem with h | h
        · exact absurd h.symm hae
        · exact h
      have hpred : (decide (a ∉ marked ++ [e])) = (decide (a ∉ marked)) := by
        by_cases ham : a ∈ marked
        · simp [ham]
        · simp [ham, hae]
      have := ih hmem2
      rcases hv : decide (a ∉ marked) with _ | _ <;>
        simp only [List.filter_cons, hpred, hv, if_true, if_false,
          Bool.false_eq_true, ite_false, ite_true, List.length_cons] <;>
        omega

lemma unmarked_batch (g : Graph) :
    ∀ (Δ marked : List Tri), Δ.Nodup → (∀ x ∈ Δ, x ∈ g.nodes ∧ x ∉ marked) →
      (g.nodes.filter (fun x => decide (x ∉ marked ++ Δ))).length + Δ.length ≤
        (g.nodes.filter (fun x => decide (x ∉ marked))).length := by
  intro Δ
  induction Δ with
  | nil =>
    intro marked _ _
    simp
  | cons e es ih =>
    intro marked hnd hsub
    have he := hsub e (List.mem_cons_self _ _)
    have hstep := unmarked_step marked e he.2 g.nodes he.1
    have hes : ∀ x ∈ es, x ∈ g.nodes ∧ x ∉ marked ++ [e] := by
      intro x hx
      have hm := hsub x (List.mem_cons_of_mem _ hx)
      refine ⟨hm.1, fun hmem => ?_⟩
      rcases List.mem_append.mp hmem with h | h
      · exact hm.2 h
      · have : x = e := by simpa using h
        subst this
        exact (List.nodup_cons.mp hnd).1 hx
    have hihs := ih (marked ++ [e]) (List.nodup_cons.mp hnd).2 hes
    have hcongr : g.nodes.filter (fun x => decide (x ∉ marked ++ e :: es)) =
        g.nodes.filter (fun x => decide (x ∉ (marked ++ [e]) ++ es)) := by
      apply List.filter_congr
      intro x _
      have : (x ∉ marked ++ e :: es) ↔ (x ∉ (marked ++ [e]) ++ es) := by
        simp only [List.mem_append, List.mem_cons, List.mem_singleton]
        tauto
      simp [this]
    rw [hcongr]
    simp only [List.length_cons]
    omega

lemma neighborsOf_sub (g : Graph) (t : Tri) : ∀ x ∈ g.neighborsOf t, x ∈ g.nodes :=
  fun _ hx => (List.mem_filter.mp hx).1

lemma freshOf_conds (g : Graph) (t : Tri) (marked : List Tri) :
    ∀ x ∈ freshOf marked (g.neighborsOf t), x ∈ g.nodes ∧ x ∉ marked := by
  intro x hx
  have h := freshOf_mem (g.neighborsOf t) marked x hx
  exact ⟨neighborsOf_sub g t x h.1, h.2⟩

lemma getCavityAux_fuel (site : Vtx) (g : Graph) :
    ∀ fuel fuel2 wl marked enc tr,
      (g.nodes.filter (fun x => decide (x ∉ marked))).length + wl.length < fuel →
      (g.nodes.filter (fun x => decide (x ∉ marked))).length + wl.length < fuel2 →
      getCavityAux site g fuel wl marked enc tr =
        getCavityAux site g fuel2 wl marked enc tr := by
  intro fuel
  induction fuel with
  | zero =>
    intro fuel2 wl marked enc tr h1 _
    omega
  | succ f ih =>
    intro fuel2 wl marked enc tr h1 h2
    cases fuel2 with
    | zero => omega
    | succ f2 =>
      cases wl with
      | nil => simp [getCavityAux]
      | cons t rest =>
        by_cases hc : vsCircumcircle site t.verts = 1
        · simp only [getCavityAux, if_pos hc]
          apply ih
          · simp only [List.length_cons] at h1
            omega
          · simp only [List.length_cons] at h2
            omega
        · simp only [getCavityAux, if_neg hc, markNeighbors_eq, List.nil_append]
          have hbatch := unmarked_batch g (freshOf marked (g.neighborsOf t)) marked
            (freshOf_nodup _ _) (freshOf_conds g t marked)
          apply ih
          · simp only [List.length_append, List.length_cons] at h1 ⊢
            omega
          · simp only [List.length_append, List.length_cons] at h2 ⊢
            omega

lemma getCavityAux_nodup (site : Vtx) (g : Graph) :
    ∀ fuel wl marked enc tr,
      (tr ++ wl).Nodup → (∀ x ∈ tr ++ wl, x ∈ marked) →
      ((getCavityAux site g fuel wl marked enc tr).2).Nodup := by
  intro fuel
  induction fuel with
  | zero =>
    intro wl marked enc tr hnd _
    exact hnd.of_append_left
  | succ f ih =>
    intro wl marked enc tr hnd hmem
    cases wl with
    | nil =>
      simpa [getCavityAux] using hnd.of_append_left
    | cons t rest =>
      have hshift : (tr ++ [t]) ++ rest = tr ++ t :: rest := by
        simp
      by_cases hc : vsCircumcircle site t.verts = 1
      · simp only [getCavityAux, if_pos hc]
        apply ih
        · rw [hshift]
          exact hnd
        · intro x hx
          exact hmem x (by rw [hshift] at hx; exact hx)
      · simp only [getCavityAux, if_neg hc, markNeighbors_eq, List.nil_append]
        apply ih
        · have heq : (tr ++ [t]) ++ (rest ++ freshOf marked (g.neighborsOf t)) =
              (tr ++ t :: rest) ++ freshOf marked (g.neighborsOf t) := by
            simp
          rw [heq]
          refine List.Nodup.append hnd (freshOf_nodup _ _) ?_
          intro a ha hafresh
          exact (freshOf_mem _ _ a hafresh).2 (hmem a ha)
        · intro x hx
          have heq : (tr ++ [t]) ++ (rest ++ freshOf marked (g.neighborsOf t)) =
              (tr ++ t :: rest) ++ freshOf marked (g.neighborsOf t) := by
            simp
          rw [heq] at hx
          rcases List.mem_append.mp hx with h | h
          · exact List.mem_append.mpr (Or.inl (hmem x h))
          · exact List.mem_append.mpr (Or.inr h)

lemma getCavityAux_filter (site : Vtx) (g : Graph) :
    ∀ fuel wl marked enc tr,
      enc = tr.filter (fun u => decide (vsCircumcircle site u.verts ≠ 1)) →
      (getCavityAux site g fuel wl marked enc tr).1 =
        ((getCavityAux site g fuel wl marked enc tr).2).filter
          (fun u => decide (vsCircumcircle site u.verts ≠ 1)) := by
  intro fuel
  induction fuel with
  | zero =>
    intro wl marked enc tr h
    exact h
  | succ f ih =>
    intro wl marked enc tr h
    cases wl with
    | nil => simpa [getCavityAux] using h
    | cons t rest =>
      by_cases hc : vsCircumcircle site t.verts = 1
      · simp only [getCavityAux, if_pos hc]
        apply ih
        rw [h, List.filter_append]
        simp [hc]
      · simp only [getCavityAux, if_neg hc, markNeighbors_eq, List.nil_append]
        apply ih
        rw [h, List.filter_append]
        simp [hc]

lemma getCavityAux_prop (site : Vtx) (g : Graph) (start : Tri) :
    ∀ fuel wl marked enc tr,
      (∀ x ∈ wl, x = start ∨ ∃ u ∈ enc, x ∈ g.neighborsOf u) →
      (∀ x ∈ tr, x = start ∨ ∃ u ∈ enc, x ∈ g.neighborsOf u) →
      ∀ x ∈ (getCavityAux site g fuel wl marked enc tr).2,
        x = start ∨ ∃ u ∈ (getCavityAux site g fuel wl marked enc tr).1,
          x ∈ g.neighborsOf u := by
  intro fuel
  induction fuel with
  | zero =>
    intro wl marked enc tr _ htr x hx
    exact htr x hx
  | succ f ih =>
    intro wl marked enc tr hwl htr
    cases wl with
    | nil =>
      intro x hx
      simp only [getCavityAux] at hx ⊢
      exact htr x hx
    | cons t rest =>
      by_cases hc : vsCircumcircle site t.verts = 1
      · simp only [getCavityAux, if_pos hc]
        apply ih
        · intro x hx
          exact hwl x (List.mem_cons_of_mem _ hx)
        · intro x hx
          rcases List.mem_append.mp hx with h | h
          · exact htr x h
          · have : x = t := by simpa using h
            subst this
            exact hwl x (List.mem_cons_self _ _)
      · simp only [getCavityAux, if_neg hc, markNeighbors_eq, List.nil_append]
        apply ih
        · intro x hx
          rcases List.mem_append.mp hx with h | h
          · rcases hwl x (List.mem_cons_of_mem _ h) with h2 | ⟨u, hu, hxu⟩
            · exact Or.inl h2
            · exact Or.inr ⟨u, List.mem_append.mpr (Or.inl hu), hxu⟩
          · refine Or.inr ⟨t, List.mem_append.mpr (Or.inr (by simp)), ?_⟩
            exact (freshOf_mem _ _ x h).1
        · intro x hx
          rcases List.mem_append.mp hx with h | h
          · rcases htr x h with h2 | ⟨u, hu, hxu⟩
            · exact Or.inl h2
            · exact Or.inr ⟨u, List.mem_append.mpr (Or.inl hu), hxu⟩
          · have : x = t := by simpa using h
            subst this
            rcases hwl x (List.mem_cons_self _ _) with h2 | ⟨u, hu, hxu⟩
            · exact Or.inl h2
            · exact Or.inr ⟨u, List.mem_append.mpr (Or.inl hu), hxu⟩

/-- C3: the cavity flood fill dequeues each triangle at most once (the
dequeue trace has no duplicates — with finite fuel-independence, clause
four, this is why it terminates on every finite graph); a dequeued
triangle is accepted into the cavity exactly when
`vsCircumcircle(site, triangle) != +1`; and every dequeued triangle
other than the start triangle entered the worklist as a graph neighbor
of a triangle already accepted into the cavity. -/
theorem getCavity_correct (site : Vtx) (g : Graph) (start : Tri) :
    (getCavityTrace site g start).Nodup ∧
    getCavity site g start =
      (getCavityTrace site g start).filter
        (fun u => decide (vsCircumcircle site u.verts ≠ 1)) ∧
    (∀ t ∈ getCavityTrace site g start,
      t = start ∨ ∃ u ∈ getCavity site g start, t ∈ g.neighborsOf u) ∧
    (∀ k, getCavityFull (g.nodes.length + 2 + k) site g start =
      getCavityFull (g.nodes.length + 2) site g start) := by
  refine ⟨?_, ?_, ?_, ?_⟩
  · apply getCavityAux_nodup site g (g.nodes.length + 2) [start] [start] [] []
    · simp
    · intro x hx
      simpa using hx
  · apply getCavityAux_filter site g (g.nodes.length + 2) [start] [start] [] []
    rfl
  · intro t ht
    exact getCavityAux_prop site g start (g.nodes.length + 2) [start] [start] [] []
      (fun x hx => Or.inl (by simpa using hx)) (fun x hx => by simp at hx) t ht
  · intro k
    have hlen : (g.nodes.filter (fun x => decide (x ∉ [start]))).length ≤
        g.nodes.length := List.length_filter_le _ _
    apply getCavityAux_fuel site g
    · simp only [List.length_cons, List.length_nil]
      omega
    · simp only [List.length_cons, List.length_nil]
      omega

/-! ### No-op insertion (C4) and failure atomicity (C9) -/

/-- C4: when `locate(site)` returns a triangle that already has `site`
as a vertex, `delaunayPlace(site)` returns without error and without
changing the triangulation — same state, hence the same live-triangle
list, triangle count and adjacency edges. -/
theorem delaunayPlace_noop (st : DT) (site : Vtx) (T : Tri)
    (h1 : locate site st = .ok (some T)) (h2 : containsV T site) :
    delaunayPlaceImp site st = (st, none) ∧
    (delaunayPlaceImp site st).1.graph.nodes = st.graph.nodes ∧
    (delaunayPlaceImp site st).1.graph.nodes.length = st.graph.nodes.length ∧
    (delaunayPlaceImp site st).1.graph.edges = st.graph.edges := by
  have hmain : delaunayPlaceImp site st = (st, none) := by
    simp only [delaunayPlaceImp, h1]
    rw [if_pos h2]
  exact ⟨hmain, by rw [hmain], by rw [hmain], by rw [hmain]⟩

/-- Witness for `delaunayPlace_noop`: re-inserting a corner of the
bounding triangle into the fresh triangulation. -/
theorem delaunayPlace_noop_witness :
    locate [-10, -10] initState = .ok (some boundingTri) ∧
    containsV boundingTri [-10, -10] ∧
    delaunayPlaceImp [-10, -10] initState = (initState, none) := by
  have h1 : locate [-10, -10] initState = .ok (some boundingTri) := by
    with_unfolding_all rfl
  have h2 : containsV boundingTri [-10, -10] := by
    with_unfolding_all decide
  exact ⟨h1, h2, (delaunayPlace_noop initState [-10, -10] boundingTri h1 h2).1⟩

/-- C9: `delaunayPlace` has no partial-failure states.  When `locate`
finds no containing triangle, the insertion fails with the
`IllegalArgumentException` before any graph mutation — before the cavity
is even computed — leaving the node set and edge set untouched; and when
the call returns without error the state is either untouched (the
already-present no-op) or exactly the state of a completed `update`. -/
theorem delaunayPlace_atomic (st : DT) (site : Vtx) :
    (locate site st = .ok none →
      delaunayPlaceImp site st =
        (st, some "IllegalArgumentException: No containing triangle") ∧
      (delaunayPlaceImp site st).1.graph.nodes = st.graph.nodes ∧
      (delaunayPlaceImp site st).1.graph.edges = st.graph.edges) ∧
    (∀ st2, delaunayPlaceImp site st = (st2, none) →
      st2 = st ∨
      ∃ T, locate site st = .ok (some T) ∧ ¬containsV T site ∧
        ∃ t, (update site (getCavity site st.graph T) st).2.1.head? = some t ∧
          st2 = { graph := (update site (getCavity site st.graph T) st).1,
                  mostRecent := t,
                  nextId := (update site (getCavity site st.graph T) st).2.2 }) := by
  constructor
  · intro h
    have hmain : delaunayPlaceImp site st =
        (st, some "IllegalArgumentException: No containing triangle") := by
      unfold delaunayPlaceImp
      rw [h]
    exact ⟨hmain, by rw [hmain], by rw [hmain]⟩
  · intro st2 h
    rcases hloc : locate site st with e | o
    · simp only [delaunayPlaceImp, hloc] at h
      simp at h
    · rcases o with _ | T
      · simp only [delaunayPlaceImp, hloc] at h
        simp at h
      · simp only [delaunayPlaceImp, hloc] at h
        by_cases hc : containsV T site
        · left
          rw [if_pos hc] at h
          injection h with ha hb
          exact ha.symm
        · right
          rw [if_neg hc] at h
          rcases hh : (update site (getCavity site st.graph T) st).2.1.head? with _ | t
          · rw [hh] at h
            injection h with ha hb
            exact absurd hb.symm (by simp)
          · rw [hh] at h
            injection h with ha hb
            exact ⟨T, rfl, hc, t, hh, ha.symm⟩

/-- Witness for `delaunayPlace_atomic`: inserting a site outside the
bounding triangle of the fresh triangulation fails and leaves the state
unchanged. -/
theorem delaunayPlace_atomic_witness :
    locate [30, 30] initState = .ok none ∧
    delaunayPlaceImp [30, 30] initState =
      (initState, some "IllegalArgumentException: No containing triangle") := by
  have h : locate [30, 30] initState = .ok none := by
    with_unfolding_all rfl
  exact ⟨h, ((delaunayPlace_atomic initState [30, 30]).1 h).1⟩

/-! ### The per-instance id generator of the transliterated triangle
constructor (C6) -/

/-- C6 evidence: because the constructor re-initialises `idGenerator` to
`0` on every instance before `idNumber = idGenerator++`, every
`DelaunayTriangle` is constructed with identity `0`: the identity of a
later triangle is never strictly greater than an earlier one's, and
`hashCode`, a function of the identity alone, collides on all
triangles. -/
theorem mkDelaunayTriangle_id_always_zero :
    (mkDelaunayTriangle [[0,0], [1,0], [0,1]]).id = 0 ∧
    (mkDelaunayTriangle [[2,2], [3,2], [2,3]]).id = 0 ∧
    ¬ (mkDelaunayTriangle [[0,0], [1,0], [0,1]]).id <
        (mkDelaunayTriangle [[2,2], [3,2], [2,3]]).id ∧
    triHashCode (mkDelaunayTriangle [[0,0], [1,0], [0,1]]) =
      triHashCode (mkDelaunayTriangle [[2,2], [3,2], [2,3]]) := by
  refine ⟨rfl, rfl, ?_, rfl⟩
  decide

/-! ### The fan walk of `surroundingTriangles` (C8) -/

lemma getD_eq_g (l : List Tri) (d : Tri) (i : Nat) (hi : i < l.length) :
    l.getD i d = l[i] := by
  simp [List.getD_eq_getElem?_getD, List.getElem?_eq_getElem hi]

lemma getDv_eq_g (l : List Vtx) (d : Vtx) (i : Nat) (hi : i < l.length) :
    l.getD i d = l[i] := by
  simp [List.getD_eq_getElem?_getD, List.getElem?_eq_getElem hi]

lemma find?_uniq {α : Type} (p : α → Bool) (x : α) :
    ∀ l : List α, x ∈ l → p x = true → (∀ y ∈ l, p y = true → y = x) →
      l.find? p = some x := by
  intro l
  induction l with
  | nil => intro hx; simp at hx
  | cons a l ih =>
    intro hx hpx huniq
    by_cases hpa : p a = true
    · rw [List.find?_cons_of_pos l hpa]
      rw [huniq a (List.mem_cons_self _ _) hpa]
    · rw [List.find?_cons_of_neg l (by simpa using hpa)]
      have hxl : x ∈ l := by
        rcases List.mem_cons.mp hx with rfl | hh
        · exact absurd hpx hpa
        · exact hh
      exact ih hxl hpx (fun y hy => huniq y (List.mem_cons_of_mem _ hy))

/-- A closed fan of triangles around `site`: the live triangles
containing `site` are exactly `ts`, listed in one cyclic order, and
`ts[i]`'s vertex *set* is `{site, vs[i], vs[i+1]}` (indices mod the fan
length) — the stored order of each triangle's vertex list is arbitrary,
as is the list order the engine's `update` actually produces
(`facet ++ [site]`, the site last).  Cyclically consecutive fan
triangles are graph neighbors, and for either of the two non-`site`
vertices of `ts[i]` the graph neighbor avoiding that vertex is unique:
the cyclic successor when `vs[i]` is avoided (`succ_unique`), the cyclic
predecessor when `vs[i+1]` is avoided (`pred_unique`).  No orientation
is singled out: which way the walk travels is decided only by the start
triangle's stored vertex order. -/
structure IsClosedFan (site : Vtx) (g : Graph) (ts : List Tri) (vs : List Vtx) : Prop where
  three_le : 3 ≤ ts.length
  len_eq : vs.length = ts.length
  nodup_ts : ts.Nodup
  nodup_vs : vs.Nodup
  site_notin_vs : site ∉ vs
  mem_nodes : ∀ t ∈ ts, t ∈ g.nodes
  fan_complete : ∀ t ∈ g.nodes, site ∈ t.verts → t ∈ ts
  verts_sub : ∀ i < ts.length, ∀ x ∈ (ts.getD i dTri).verts,
    x = site ∨ x = vs.getD i [] ∨ x = vs.getD ((i + 1) % ts.length) []
  verts_sup : ∀ i < ts.length,
    site ∈ (ts.getD i dTri).verts ∧
    vs.getD i [] ∈ (ts.getD i dTri).verts ∧
    vs.getD ((i + 1) % ts.length) [] ∈ (ts.getD i dTri).verts
  succ_mem : ∀ i < ts.length,
    ts.getD ((i + 1) % ts.length) dTri ∈ g.neighborsOf (ts.getD i dTri)
  succ_unique : ∀ i < ts.length, ∀ u ∈ g.neighborsOf (ts.getD i dTri),
    vs.getD i [] ∉ u.verts → u = ts.getD ((i + 1) % ts.length) dTri
  pred_unique : ∀ i < ts.length, ∀ u ∈ g.neighborsOf (ts.getD i dTri),
    vs.getD ((i + 1) % ts.length) [] ∉ u.verts →
      u = ts.getD ((i + ts.length - 1) % ts.length) dTri

lemma mod_succ_ne (n i : Nat) (h2 : 2 ≤ n) (hi : i < n) : (i + 1) % n ≠ i := by
  by_cases h : i + 1 < n
  · rw [Nat.mod_eq_of_lt h]
    omega
  · have he : i + 1 = n := by omega
    rw [he, Nat.mod_self]
    omega

lemma mod_two_ne (n i : Nat) (h3 : 3 ≤ n) (hi : i < n) : (i + 2) % n ≠ i := by
  by_cases h : i + 2 < n
  · rw [Nat.mod_eq_of_lt h]
    omega
  · have hs : (i + 2) % n = (i + 2 - n) % n := Nat.mod_eq_sub_mod (by omega)
    have hlt : i + 2 - n < n := by omega
    rw [hs, Nat.mod_eq_of_lt hlt]
    omega

lemma mod_prev_succ (n i : Nat) (h1 : 1 ≤ n) (hi : i < n) :
    ((i + n - 1) % n + 1) % n = i := by
  have h2 : i + n - 1 + 1 = i + n := by omega
  rw [Nat.mod_add_mod, h2, Nat.add_mod_right, Nat.mod_eq_of_lt hi]

lemma mod_prev_ne_succ (n i : Nat) (h3 : 3 ≤ n) (hi : i < n) :
    (i + n - 1) % n ≠ (i + 1) % n := by
  intro he
  have h := mod_prev_succ n i (by omega) hi
  rw [he, Nat.mod_add_mod] at h
  exact mod_two_ne n i h3 hi h

/-- The modelled graph's neighbor relation is symmetric on nodes (an
edge in either orientation connects both endpoints). -/
lemma neighborsOf_symm (g : Graph) (t u : Tri) (ht : t ∈ g.nodes)
    (hu : u ∈ g.neighborsOf t) : t ∈ g.neighborsOf u := by
  simp only [Graph.neighborsOf, List.mem_filter, List.any_eq_true] at hu ⊢
  obtain ⟨hun, e, he, hor⟩ := hu
  rw [Bool.or_comm] at hor
  exact ⟨ht, e, he, hor⟩

lemma fan_vs_ne (site : Vtx) (g : Graph) (ts : List Tri) (vs : List Vtx)
    (h : IsClosedFan site g ts vs) (i j : Nat)
    (hi : i < ts.length) (hj : j < ts.length) (hij : i ≠ j) :
    vs.getD i [] ≠ vs.getD j [] := by
  have hi2 : i < vs.length := by rw [h.len_eq]; exact hi
  have hj2 : j < vs.length := by rw [h.len_eq]; exact hj
  rw [getDv_eq_g vs [] i hi2, getDv_eq_g vs [] j hj2]
  intro heq
  exact hij ((h.nodup_vs.getElem_inj_iff).mp heq)

lemma fan_site_ne (site : Vtx) (g : Graph) (ts : List Tri) (vs : List Vtx)
    (h : IsClosedFan site g ts vs) (i : Nat) (hi : i < ts.length) :
    site ≠ vs.getD i [] := by
  have hi2 : i < vs.length := by rw [h.len_eq]; exact hi
  rw [getDv_eq_g vs [] i hi2]
  intro heq
  exact h.site_notin_vs (heq ▸ List.getElem_mem _)

lemma fan_ts_ne (site : Vtx) (g : Graph) (ts : List Tri) (vs : List Vtx)
    (h : IsClosedFan site g ts vs) (i j : Nat)
    (hi : i < ts.length) (hj : j < ts.length) (hij : i ≠ j) :
    ts.getD i dTri ≠ ts.getD j dTri := by
  rw [getD_eq_g ts dTri i hi, getD_eq_g ts dTri j hj]
  intro heq
  exact hij ((h.nodup_ts.getElem_inj_iff).mp heq)

lemma fan_ts_getD_mem (ts : List Tri) (i : Nat) (hi : i < ts.length) :
    ts.getD i dTri ∈ ts := by
  rw [getD_eq_g ts dTri i hi]
  exact List.getElem_mem _

/-- The cyclic predecessor is also a graph neighbor, by symmetry of the
undirected adjacency. -/
lemma fan_pred_mem (site : Vtx) (g : Graph) (ts : List Tri) (vs : List Vtx)
    (h : IsClosedFan site g ts vs) (i : Nat) (hi : i < ts.length) :
    ts.getD ((i + ts.length - 1) % ts.length) dTri ∈
      g.neighborsOf (ts.getD i dTri) := by
  have h3 := h.three_le
  have hp : (i + ts.length - 1) % ts.length < ts.length := Nat.mod_lt _ (by omega)
  have hs := h.succ_mem _ hp
  rw [mod_prev_succ ts.length i (by omega) hi] at hs
  exact neighborsOf_symm g _ _ (h.mem_nodes _ (fan_ts_getD_mem ts _ hp)) hs

lemma fan_guide_notin (site : Vtx) (g : Graph) (ts : List Tri) (vs : List Vtx)
    (h : IsClosedFan site g ts vs) (i : Nat) (hi : i < ts.length) :
    vs.getD i [] ∉ (ts.getD ((i + 1) % ts.length) dTri).verts := by
  have h3 := h.three_le
  have hi1 : (i + 1) % ts.length < ts.length := Nat.mod_lt _ (by omega)
  intro hmem
  rcases h.verts_sub _ hi1 _ hmem with heq | heq | heq
  · exact fan_site_ne site g ts vs h i hi heq.symm
  · exact fan_vs_ne site g ts vs h i ((i + 1) % ts.length) hi hi1
      (Ne.symm (mod_succ_ne ts.length i (by omega) hi)) heq
  · rw [Nat.mod_add_mod] at heq
    exact fan_vs_ne site g ts vs h i ((i + 1 + 1) % ts.length) hi
      (Nat.mod_lt _ (by omega))
      (Ne.symm (mod_two_ne ts.length i h3 hi)) heq

lemma fan_guide_notin_rev (site : Vtx) (g : Graph) (ts : List Tri) (vs : List Vtx)
    (h : IsClosedFan site g ts vs) (i : Nat) (hi : i < ts.length) :
    vs.getD ((i + 1) % ts.length) [] ∉
      (ts.getD ((i + ts.length - 1) % ts.length) dTri).verts := by
  have h3 := h.three_le
  have hp : (i + ts.length - 1) % ts.length < ts.length := Nat.mod_lt _ (by omega)
  have hi1 : (i + 1) % ts.length < ts.length := Nat.mod_lt _ (by omega)
  intro hmem
  rcases h.verts_sub _ hp _ hmem with heq | heq | heq
  · exact fan_site_ne site g ts vs h _ hi1 heq.symm
  · exact fan_vs_ne site g ts vs h ((i + 1) % ts.length) _ hi1 hp
      (Ne.symm (mod_prev_ne_succ ts.length i h3 hi)) heq
  · rw [mod_prev_succ ts.length i (by omega) hi] at heq
    exact fan_vs_ne site g ts vs h ((i + 1) % ts.length) i hi1 hi
      (mod_succ_ne ts.length i (by omega) hi) heq

lemma fan_neighborOpposite (site : Vtx) (g : Graph) (ts : List Tri) (vs : List Vtx)
    (h : IsClosedFan site g ts vs) (i : Nat) (hi : i < ts.length) :
    neighborOpposite (vs.getD i []) (ts.getD i dTri) g =
      .ok (some (ts.getD ((i + 1) % ts.length) dTri)) := by
  unfold neighborOpposite
  have hmem : containsV (ts.getD i dTri) (vs.getD i []) := (h.verts_sup i hi).2.1
  rw [if_pos hmem]
  refine congrArg Except.ok (find?_uniq _ _ _ (h.succ_mem i hi) ?_ ?_)
  · simp only [decide_eq_true_eq, containsV]
    exact fan_guide_notin site g ts vs h i hi
  · intro y hy hpy
    simp only [decide_eq_true_eq, containsV] at hpy
    exact h.succ_unique i hi y hy hpy

lemma fan_neighborOpposite_rev (site : Vtx) (g : Graph) (ts : List Tri)
    (vs : List Vtx) (h : IsClosedFan site g ts vs) (i : Nat) (hi : i < ts.length) :
    neighborOpposite (vs.getD ((i + 1) % ts.length) []) (ts.getD i dTri) g =
      .ok (some (ts.getD ((i + ts.length - 1) % ts.length) dTri)) := by
  unfold neighborOpposite
  have hmem : containsV (ts.getD i dTri) (vs.getD ((i + 1) % ts.length) []) :=
    (h.verts_sup i hi).2.2
  rw [if_pos hmem]
  refine congrArg Except.ok
    (find?_uniq _ _ _ (fan_pred_mem site g ts vs h i hi) ?_ ?_)
  · simp only [decide_eq_true_eq, containsV]
    exact fan_guide_notin_rev site g ts vs h i hi
  · intro y hy hpy
    simp only [decide_eq_true_eq, containsV] at hpy
    exact h.pred_unique i hi y hy hpy

lemma fan_guide_step (site : Vtx) (g : Graph) (ts : List Tri) (vs : List Vtx)
    (h : IsClosedFan site g ts vs) (i : Nat) (hi : i < ts.length) :
    getVertexButNot (ts.getD i dTri) [site, vs.getD i []] =
      some (vs.getD ((i + 1) % ts.length) []) := by
  have h3 := h.three_le
  have hi1 : (i + 1) % ts.length < ts.length := Nat.mod_lt _ (by omega)
  unfold getVertexButNot
  refine find?_uniq _ _ _ (h.verts_sup i hi).2.2 ?_ ?_
  · simp only [decide_eq_true_eq, List.mem_cons, List.mem_singleton, not_or,
      List.not_mem_nil]
    refine ⟨Ne.symm (fan_site_ne site g ts vs h _ hi1), ?_, not_false⟩
    exact fan_vs_ne site g ts vs h _ i hi1 hi
      (mod_succ_ne ts.length i (by omega) hi)
  · intro y hy hpy
    simp only [decide_eq_true_eq, List.mem_cons, List.mem_singleton, not_or,
      List.not_mem_nil] at hpy
    rcases h.verts_sub i hi y hy with heq | heq | heq
    · exact absurd heq hpy.1
    · exact absurd heq hpy.2.1
    · exact heq

lemma fan_guide_step_rev (site : Vtx) (g : Graph) (ts : List Tri) (vs : List Vtx)
    (h : IsClosedFan site g ts vs) (i : Nat) (hi : i < ts.length) :
    getVertexButNot (ts.getD i dTri) [site, vs.getD ((i + 1) % ts.length) []] =
      some (vs.getD i []) := by
  have h3 := h.three_le
  unfold getVertexButNot
  refine find?_uniq _ _ _ (h.verts_sup i hi).2.1 ?_ ?_
  · simp only [decide_eq_true_eq, List.mem_cons, List.mem_singleton, not_or,
      List.not_mem_nil]
    refine ⟨Ne.symm (fan_site_ne site g ts vs h _ hi), ?_, not_false⟩
    exact fan_vs_ne site g ts vs h i ((i + 1) % ts.length) hi
      (Nat.mod_lt _ (by omega))
      (Ne.symm (mod_succ_ne ts.length i (by omega) hi))
  · intro y hy hpy
    simp only [decide_eq_true_eq, List.mem_cons, List.mem_singleton, not_or,
      List.not_mem_nil] at hpy
    rcases h.verts_sub i hi y hy with heq | heq | heq
    · exact absurd heq hpy.1
    · exact heq
    · exact absurd heq hpy.2.1

lemma stLoop_fan (site : Vtx) (g : Graph) (ts : List Tri) (vs : List Vtx)
    (h : IsClosedFan site g ts vs) :
    ∀ j, 1 ≤ j → ∀ i fuel acc, i + j = ts.length → 1 ≤ i → j ≤ fuel →
      stLoop site g fuel (ts.getD i dTri) (vs.getD i []) acc (ts.getD 0 dTri) =
        .ok (some (acc ++ ts.drop i)) := by
  intro j
  induction j with
  | zero => intro h1; omega
  | succ j ihj =>
    intro _ i fuel acc hsum h1i hfuel
    have h3 := h.three_le
    have hi : i < ts.length := by omega
    cases fuel with
    | zero => omega
    | succ f =>
      simp only [stLoop, fan_neighborOpposite site g ts vs h i hi,
        fan_guide_step site g ts vs h i hi]
      by_cases hj : j = 0
      · subst hj
        have hmod : (i + 1) % ts.length = 0 := by
          rw [show i + 1 = ts.length from by omega, Nat.mod_self]
        rw [hmod, if_pos rfl]
        have hdrop : ts.drop i = [ts.getD i dTri] := by
          rw [List.drop_eq_getElem_cons hi, ← getD_eq_g ts dTri i hi,
            show i + 1 = ts.length from by omega, List.drop_length]
        rw [hdrop]
      · have hi1 : i + 1 < ts.length := by omega
        have hmod : (i + 1) % ts.length = i + 1 := Nat.mod_eq_of_lt hi1
        have hne : ts.getD (i + 1) dTri ≠ ts.getD 0 dTri :=
          fan_ts_ne site g ts vs h (i + 1) 0 hi1 (by omega) (by omega)
        rw [hmod, if_neg hne]
        rw [ihj (by omega) (i + 1) f (acc ++ [ts.getD i dTri]) (by omega)
          (by omega) (by omega)]
        have hdrop : ts.drop i = ts.getD i dTri :: ts.drop (i + 1) := by
          rw [List.drop_eq_getElem_cons hi, ← getD_eq_g ts dTri i hi]
        rw [hdrop]
        simp

/-- The backward walk: from `ts[i]` with the guide chosen so the step
avoids `vs[i+1]`, the loop steps to the cyclic predecessor each time and
accumulates `ts[i], ts[i-1], …, ts[1]` before closing at `ts[0]`. -/
lemma stLoop_fan_rev (site : Vtx) (g : Graph) (ts : List Tri) (vs : List Vtx)
    (h : IsClosedFan site g ts vs) :
    ∀ i, 1 ≤ i → i < ts.length → ∀ fuel acc, i ≤ fuel →
      stLoop site g fuel (ts.getD i dTri) (vs.getD ((i + 1) % ts.length) []) acc
          (ts.getD 0 dTri) =
        .ok (some (acc ++ ((ts.drop 1).take i).reverse)) := by
  have h3 := h.three_le
  intro i
  induction i with
  | zero => intro h1; omega
  | succ i ihi =>
    intro _ hilt fuel acc hfuel
    have hi1 : i + 1 < ts.length := hilt
    cases fuel with
    | zero => omega
    | succ f =>
      have hno := fan_neighborOpposite_rev site g ts vs h (i + 1) hi1
      have hgs := fan_guide_step_rev site g ts vs h (i + 1) hi1
      have hprev : (i + 1 + ts.length - 1) % ts.length = i := by
        rw [show i + 1 + ts.length - 1 = i + ts.length from by omega,
          Nat.add_mod_right, Nat.mod_eq_of_lt (by omega)]
      rw [hprev] at hno
      simp only [stLoop, hno, hgs]
      by_cases hz : i = 0
      · subst hz
        rw [if_pos rfl]
        have hgl : (ts.drop 1)[0]? = some (ts.getD (0 + 1) dTri) := by
          rw [List.getElem?_drop, show 1 + 0 = 0 + 1 from rfl,
            List.getElem?_eq_getElem hi1, getD_eq_g ts dTri (0 + 1) hi1]
        rw [List.take_succ, hgl, List.take_zero]
        simp
      · have hne : ts.getD i dTri ≠ ts.getD 0 dTri :=
          fan_ts_ne site g ts vs h i 0 (by omega) (by omega) hz
        rw [if_neg hne]
        have hmod : (i + 1) % ts.length = i + 1 := Nat.mod_eq_of_lt hi1
        have hrec := ihi (by omega) (by omega) f (acc ++ [ts.getD (i + 1) dTri])
          (by omega)
        rw [hmod] at hrec
        rw [hrec]
        have hgl : (ts.drop 1)[i]? = some (ts.getD (i + 1) dTri) := by
          rw [List.getElem?_drop, show 1 + i = i + 1 from by omega,
            List.getElem?_eq_getElem hi1, getD_eq_g ts dTri (i + 1) hi1]
        have htk : (ts.drop 1).take (i + 1) =
            (ts.drop 1).take i ++ [ts.getD (i + 1) dTri] := by
          rw [List.take_succ, hgl]
          rfl
        rw [htk]
        simp

/-- Every fan triangle is a live triangle having the site as a vertex. -/
lemma fan_mem_props (site : Vtx) (g : Graph) (ts : List Tri) (vs : List Vtx)
    (h : IsClosedFan site g ts vs) :
    ∀ t ∈ ts, t ∈ g.nodes ∧ containsV t site := by
  intro t ht
  refine ⟨h.mem_nodes t ht, ?_⟩
  rcases List.mem_iff_getElem.mp ht with ⟨i, hilt, hig⟩
  have hc : containsV (ts.getD i dTri) site := (h.verts_sup i hilt).1
  rw [getD_eq_g ts dTri i hilt, hig] at hc
  exact hc

/-- Indexing the reversed walk list: entry `k` is `ts[(n - k) mod n]`. -/
lemma lrev_getD (ts : List Tri) (k : Nat) (hk : k < ts.length) :
    (ts.getD 0 dTri :: (ts.drop 1).reverse).getD k dTri =
      ts.getD ((ts.length - k) % ts.length) dTri := by
  cases k with
  | zero =>
    simp only [List.getD_cons_zero, Nat.sub_zero, Nat.mod_self]
  | succ k =>
    simp only [List.getD_cons_succ]
    have hk1 : k < ((ts.drop 1).reverse).length := by
      rw [List.length_reverse, List.length_drop]; omega
    rw [getD_eq_g _ dTri k hk1, List.getElem_reverse, List.getElem_drop,
      Nat.mod_eq_of_lt (show ts.length - (k + 1) < ts.length by omega),
      getD_eq_g ts dTri _ (by omega)]
    simp only [List.length_drop]
    have hidx : 1 + (ts.length - 1 - 1 - k) = ts.length - (k + 1) := by omega
    simp only [hidx]

/-- Index arithmetic for the reversed walk's cyclic adjacency. -/
lemma lrev_adj_idx (n k : Nat) (_h3 : 3 ≤ n) (hk : k < n) :
    ((n - (k + 1) % n) % n + 1) % n = (n - k) % n := by
  by_cases hc : k + 1 < n
  · rw [Nat.mod_eq_of_lt hc, Nat.mod_eq_of_lt (show n - (k + 1) < n by omega),
      show n - (k + 1) + 1 = n - k from by omega]
  · have hce : k + 1 = n := by omega
    rw [hce, Nat.mod_self, Nat.sub_zero, Nat.mod_self, Nat.zero_add,
      show n - k = 1 from by omega]

/-- Cyclically consecutive entries of the reversed walk list are graph
neighbors (predecessor steps seen through the symmetric adjacency). -/
lemma lrev_adjacent (site : Vtx) (g : Graph) (ts : List Tri) (vs : List Vtx)
    (h : IsClosedFan site g ts vs) :
    ∀ k < (ts.getD 0 dTri :: (ts.drop 1).reverse).length,
      (ts.getD 0 dTri :: (ts.drop 1).reverse).getD
          ((k + 1) % (ts.getD 0 dTri :: (ts.drop 1).reverse).length) dTri ∈
        g.neighborsOf ((ts.getD 0 dTri :: (ts.drop 1).reverse).getD k dTri) := by
  have h3 := h.three_le
  have hlen : (ts.getD 0 dTri :: (ts.drop 1).reverse).length = ts.length := by
    rw [List.length_cons, List.length_reverse, List.length_drop]; omega
  intro k hk
  rw [hlen] at hk
  rw [hlen, lrev_getD ts k hk,
    lrev_getD ts ((k + 1) % ts.length) (Nat.mod_lt _ (by omega))]
  have hB : (ts.length - (k + 1) % ts.length) % ts.length < ts.length :=
    Nat.mod_lt _ (by omega)
  have hs := h.succ_mem _ hB
  rw [lrev_adj_idx ts.length k h3 hk] at hs
  exact neighborsOf_symm g _ _ (h.mem_nodes _ (fan_ts_getD_mem ts _ hB)) hs

/-- Both possible walk results (the fan order and its reversal anchored
at the start triangle) carry the claimed properties: no duplicates,
exactly the live triangles containing the site, cyclically consecutive
entries adjacent. -/
lemma fan_walk_props (site : Vtx) (g : Graph) (ts : List Tri) (vs : List Vtx)
    (h : IsClosedFan site g ts vs) (l : List Tri)
    (hl : l = ts ∨ l = ts.getD 0 dTri :: (ts.drop 1).reverse) :
    l.Nodup ∧ (∀ t ∈ l, t ∈ g.nodes ∧ containsV t site) ∧
    (∀ t ∈ g.nodes, containsV t site → t ∈ l) ∧
    (∀ i < l.length,
      l.getD ((i + 1) % l.length) dTri ∈ g.neighborsOf (l.getD i dTri)) := by
  have h3 := h.three_le
  have h0 : (0 : Nat) < ts.length := by omega
  have hts : ts.getD 0 dTri :: ts.drop 1 = ts := by
    rw [getD_eq_g ts dTri 0 h0]
    have hd := List.drop_eq_getElem_cons (l := ts) (n := 0) h0
    rw [List.drop_zero] at hd
    exact hd.symm
  have hperm : l.Perm ts := by
    rcases hl with rfl | rfl
    · exact List.Perm.refl _
    · have hp := List.Perm.cons (ts.getD 0 dTri) (List.reverse_perm (ts.drop 1))
      rw [hts] at hp
      exact hp
  refine ⟨hperm.nodup_iff.mpr h.nodup_ts, ?_, ?_, ?_⟩
  · intro t ht
    exact fan_mem_props site g ts vs h t (hperm.mem_iff.mp ht)
  · intro t htn hc
    exact hperm.mem_iff.mpr (h.fan_complete t htn hc)
  · rcases hl with rfl | rfl
    · exact h.succ_mem
    · exact lrev_adjacent site g ts vs h

/-- C8: for a site whose incident triangles form a closed fan
(`IsClosedFan`), `surroundingTriangles(site, startTriangle)` starting at
the fan's head terminates within its fuel and returns exactly the live
triangles having `site` as a vertex — each exactly once, cyclically
consecutive entries being graph neighbors — traversed either in the
fan's cyclic order or in the reverse one; which of the two (cw or ccw)
is decided only by the start triangle's stored vertex order, matching
the source comment's unspecified direction. -/
theorem surroundingTriangles_fan (site : Vtx) (g : Graph) (ts : List Tri)
    (vs : List Vtx) (h : IsClosedFan site g ts vs) :
    ∃ l, surroundingTriangles site (ts.getD 0 dTri) g = .ok (some l) ∧
      (l = ts ∨ l = ts.getD 0 dTri :: (ts.drop 1).reverse) ∧
      l.Nodup ∧
      (∀ t ∈ l, t ∈ g.nodes ∧ containsV t site) ∧
      (∀ t ∈ g.nodes, containsV t site → t ∈ l) ∧
      (∀ i < l.length,
        l.getD ((i + 1) % l.length) dTri ∈ g.neighborsOf (l.getD i dTri)) := by
  have h3 := h.three_le
  have h0 : (0 : Nat) < ts.length := by omega
  have hcont : containsV (ts.getD 0 dTri) site := (h.verts_sup 0 h0).1
  have hnlen : ts.length ≤ g.nodes.length :=
    (List.subperm_of_subset h.nodup_ts (fun x hx => h.mem_nodes x hx)).length_le
  have hts : ts.getD 0 dTri :: ts.drop 1 = ts := by
    rw [getD_eq_g ts dTri 0 h0]
    have hd := List.drop_eq_getElem_cons (l := ts) (n := 0) h0
    rw [List.drop_zero] at hd
    exact hd.symm
  have hrun : surroundingTriangles site (ts.getD 0 dTri) g = .ok (some ts) ∨
      surroundingTriangles site (ts.getD 0 dTri) g =
        .ok (some (ts.getD 0 dTri :: (ts.drop 1).reverse)) := by
    rcases hgv : getVertexButNot (ts.getD 0 dTri) [site] with _ | w
    · exfalso
      simp only [getVertexButNot] at hgv
      have hmem := (h.verts_sup 0 h0).2.1
      have hno := List.find?_eq_none.mp hgv _ hmem
      simp only [decide_eq_true_eq, not_not, List.mem_singleton] at hno
      exact fan_site_ne site g ts vs h 0 h0 hno.symm
    · have hgv2 := hgv
      simp only [getVertexButNot] at hgv2
      have hw_mem : w ∈ (ts.getD 0 dTri).verts := List.mem_of_find?_eq_some hgv2
      have hw_p := List.find?_some hgv2
      simp only [decide_eq_true_eq, List.mem_singleton] at hw_p
      rcases h.verts_sub 0 h0 w hw_mem with hw | hw | hw
      · exact absurd hw hw_p
      · left
        subst hw
        unfold surroundingTriangles
        rw [if_neg (not_not_intro hcont), hgv]
        simp only [stLoop, fan_neighborOpposite site g ts vs h 0 h0,
          fan_guide_step site g ts vs h 0 h0]
        have hm1 : (0 + 1) % ts.length = 1 := Nat.mod_eq_of_lt (by omega)
        have hne : ts.getD 1 dTri ≠ ts.getD 0 dTri :=
          fan_ts_ne site g ts vs h 1 0 (by omega) h0 (by omega)
        rw [hm1, if_neg hne]
        rw [stLoop_fan site g ts vs h (ts.length - 1) (by omega) 1 g.nodes.length
          ([] ++ [ts.getD 0 dTri]) (by omega) (by omega) (by omega)]
        rw [List.nil_append, List.singleton_append, hts]
      · right
        subst hw
        unfold surroundingTriangles
        rw [if_neg (not_not_intro hcont), hgv]
        have hno := fan_neighborOpposite_rev site g ts vs h 0 h0
        have hgs := fan_guide_step_rev site g ts vs h 0 h0
        have hm : (0 + ts.length - 1) % ts.length = ts.length - 1 := by
          rw [Nat.zero_add, Nat.mod_eq_of_lt (by omega)]
        rw [hm] at hno
        simp only [stLoop, hno, hgs]
        have hne : ts.getD (ts.length - 1) dTri ≠ ts.getD 0 dTri :=
          fan_ts_ne site g ts vs h (ts.length - 1) 0 (by omega) h0 (by omega)
        rw [if_neg hne]
        have hrev := stLoop_fan_rev site g ts vs h (ts.length - 1) (by omega)
          (by omega) g.nodes.length ([] ++ [ts.getD 0 dTri]) (by omega)
        rw [Nat.sub_add_cancel (by omega), Nat.mod_self] at hrev
        rw [hrev]
        have htake : (ts.drop 1).take (ts.length - 1) = ts.drop 1 := by
          rw [show ts.length - 1 = (ts.drop 1).length from by
            rw [List.length_drop], List.take_length]
        rw [htake]
        simp
  rcases hrun with hr | hr
  · exact ⟨ts, hr, Or.inl rfl, fan_walk_props site g ts vs h ts (Or.inl rfl)⟩
  · exact ⟨_, hr, Or.inr rfl, fan_walk_props site g ts vs h _ (Or.inr rfl)⟩

/-- Fan witness data: the inserted site. -/
def fanSite : Vtx := [0, 0]

/-- Fan witness data: the graph the engine itself produces by inserting
`fanSite` into the initial triangulation — each new triangle stores its
vertices as `facet ++ [site]`, the site last. -/
def fanGraph : Graph := (delaunayPlaceImp fanSite initState).1.graph

/-- Fan witness data: the engine-built fan triangles in cyclic order. -/
def fanTs : List Tri :=
  [⟨1, [[10, -10], [0, 10], [0, 0]]⟩,
   ⟨2, [[-10, -10], [0, 10], [0, 0]]⟩,
   ⟨3, [[-10, -10], [10, -10], [0, 0]]⟩]

/-- Fan witness data: the ring vertices in the matching cyclic order. -/
def fanVs : List Vtx := [[10, -10], [0, 10], [-10, -10]]

/-- Witness for `surroundingTriangles_fan`: the engine-produced fan
around an inserted site is a closed fan and the walk traverses it. -/
theorem surroundingTriangles_fan_witness :
    IsClosedFan fanSite fanGraph fanTs fanVs ∧
    (∃ l, surroundingTriangles fanSite (fanTs.getD 0 dTri) fanGraph =
        .ok (some l) ∧
      (l = fanTs ∨ l = fanTs.getD 0 dTri :: (fanTs.drop 1).reverse) ∧
      l.Nodup ∧
      (∀ t ∈ l, t ∈ fanGraph.nodes ∧ containsV t fanSite) ∧
      (∀ t ∈ fanGraph.nodes, containsV t fanSite → t ∈ l) ∧
      (∀ i < l.length,
        l.getD ((i + 1) % l.length) dTri ∈
          fanGraph.neighborsOf (l.getD i dTri))) := by
  have hfan : IsClosedFan fanSite fanGraph fanTs fanVs := by
    refine ⟨?_, ?_, ?_, ?_, ?_, ?_, ?_, ?_, ?_, ?_, ?_, ?_⟩ <;>
      with_unfolding_all decide
  exact ⟨hfan, surroundingTriangles_fan fanSite fanGraph fanTs fanVs hfan⟩

/-- C7 counterexample: at a point coinciding with the first simplex
vertex the relation signs are `[-1, 0, 0]` (two zeros witnessed by
distinct vertices), and the source's `isOn` returns the **last** zero
witness `(0,1)`, not the first `(1,0)` that the spec sentence names. -/
theorem isOn_first_counterexample :
    (([0, 0] : Vtx).length + 1 = ([[0,0], [1,0], [0,1]] : List Vtx).length) ∧
    isOn [0, 0] [[0,0], [1,0], [0,1]] ≠
      isOnSpecFirst [0, 0] [[0,0], [1,0], [0,1]] := by
  constructor
  · decide
  · with_unfolding_all decide

end Toxi
